import Mathlib

/-!
Shallow embedding of the FlowX validation pipeline
(`app/crawler/validator.py`, `app/crawler/validation_pipeline.py`,
`app/crawler/excel_writer.py`) and proofs about its specification.

Conventions of the embedding:
* Python scalar cell values are modelled by `Value`; `Value.vNone` plays the
  role of Python `None` (absent cells, missing dictionary keys).
* Python dictionaries keyed by strings are modelled as association lists,
  looked up with `alookup` (first match; readers produce distinct headers).
* Machine floats never enter the claims; `percent` arithmetic is modelled
  with exact rationals.
* Fallible Python code (regex compilation, the type-coercion `try` block,
  the whole pipeline run) is modelled with `Except` / `Option`.
* The nondeterministic completion order of concurrently executed chunks is
  modelled by an arbitrary `shuffle` function assumed to permute its input:
  any interleaving of `anyio` task completions appends the chunk results in
  some permutation of the batch.
-/

/-- A Python scalar value as produced by the Excel/CSV readers.
`vNone` is Python `None`; `vDate` models `datetime.date`/`datetime.datetime`
values (only the calendar day matters to the validator). -/
inductive Value where
  | vNone : Value
  | vStr (s : String) : Value
  | vInt (n : Int) : Value
  | vDate (y m d : Nat) : Value
deriving DecidableEq, Repr

/-- A row: ordered mapping from field name to value (a Python dict). -/
abbrev Row := List (String × Value)

/-- First-match association-list lookup, modelling Python `dict.get(k)`
(readers emit distinct keys, so first match equals dict lookup). -/
def alookup {κ β : Type} [DecidableEq κ] : List (κ × β) → κ → Option β
  | [], _ => none
  | (k0, v) :: rest, k => if k0 = k then some v else alookup rest k

/-- `row.get(field)`: absent keys give Python `None`, i.e. `vNone`. -/
def rowGet (r : Row) (k : String) : Value := (alookup r k).getD .vNone

/-- Left-pad a numeral string with zeros. -/
def padZeros (width : Nat) (s : String) : String :=
  String.mk (List.replicate (width - s.length) '0') ++ s

/-- Python `str(value)` on the modelled scalars. -/
def pyStr : Value → String
  | .vNone => "None"
  | .vStr s => s
  | .vInt n => toString n
  | .vDate y m d =>
      padZeros 4 (toString y) ++ "-" ++ padZeros 2 (toString m) ++ "-" ++ padZeros 2 (toString d)

/-- Python's whitespace test for `str.strip()` (ASCII part). -/
def isPySpace (c : Char) : Bool := c = ' ' || c = '\t' || c = '\n' || c = '\r'

/-- `str.strip()` on the character list: drop whitespace at both ends.
(Executable model of the Python built-in; `String.trim` itself does not
reduce inside the kernel.) -/
def stripL (l : List Char) : List Char :=
  ((l.dropWhile isPySpace).reverse.dropWhile isPySpace).reverse

/-- `str.strip()`. -/
def pyStrip (s : String) : String := String.mk (stripL s.toList)

/-- Lowercase one character (ASCII model of `str.lower`). -/
def pyLowerChar (c : Char) : Char :=
  if 65 ≤ c.toNat && c.toNat ≤ 90 then Char.ofNat (c.toNat + 32) else c

/-- `str.lower()` (ASCII model; header and field names are ASCII). -/
def pyLower (s : String) : String := String.mk (s.toList.map pyLowerChar)

/-- Strip one optional leading sign from a literal. -/
def stripSignL : List Char → List Char
  | '-' :: t => t
  | '+' :: t => t
  | t => t

/-- A nonempty all-digit character list. -/
def allDigitsL (l : List Char) : Bool := !l.isEmpty && l.all Char.isDigit

/-- Split a character list at every separator character. -/
def splitOnChar (p : Char → Bool) : List Char → List (List Char)
  | [] => [[]]
  | c :: rest =>
    if p c then [] :: splitOnChar p rest
    else
      match splitOnChar p rest with
      | [] => [[c]]
      | g :: gs => (c :: g) :: gs

/-- Acceptance of Python `int(s)` on a string: optional surrounding
whitespace, optional sign, then at least one digit. -/
def pyIntLitOk (s : String) : Bool := allDigitsL (stripSignL (stripL s.toList))

/-- Digit check for a mantissa part `d1.d2` / `d1` of a float literal. -/
def mantissaOk (l : List Char) : Bool :=
  match splitOnChar (fun c => c = '.') l with
  | [d] => allDigitsL d
  | [d1, d2] => !(d1 ++ d2).isEmpty && (d1 ++ d2).all Char.isDigit
  | _ => false

/-- Acceptance of Python `float(s)` on a string: optional whitespace and
sign, digits with an optional decimal point, optional exponent. -/
def pyFloatLitOk (s : String) : Bool :=
  let t := stripSignL (stripL s.toList)
  match splitOnChar (fun c => c = 'e' || c = 'E') t with
  | [m] => mantissaOk m
  | [m, ex] => mantissaOk m && allDigitsL (stripSignL ex)
  | _ => false

/-- Acceptance of `Decimal(s)` (numeric literals; same shape as floats). -/
def decimalLitOk (s : String) : Bool :=
  let t := stripSignL (stripL s.toList)
  match splitOnChar (fun c => c = 'e' || c = 'E') t with
  | [m] => mantissaOk m
  | [m, ex] => mantissaOk m && allDigitsL (stripSignL ex)
  | _ => false

/-- Acceptance of `datetime.fromisoformat(s)` restricted to the
`YYYY-MM-DD` date shape the validator expects. -/
def isoDateOk (s : String) : Bool :=
  match s.toList with
  | [y1, y2, y3, y4, '-', m1, m2, '-', d1, d2] =>
      [y1, y2, y3, y4, m1, m2, d1, d2].all Char.isDigit &&
      (let mth := (m1.toNat - 48) * 10 + (m2.toNat - 48)
       let day := (d1.toNat - 48) * 10 + (d2.toNat - 48)
       decide (1 ≤ mth) && decide (mth ≤ 12) && decide (1 ≤ day) && decide (day ≤ 31))
  | _ => false

/-- `int(value)` in the coercion block (`validator.py` line 89):
errors model the `ValueError`/`TypeError` the interpreter raises. -/
def pyIntCoerce : Value → Except String Unit
  | .vInt _ => .ok ()
  | .vStr s => if pyIntLitOk s then .ok () else .error "ValueError: invalid literal for int"
  | .vDate _ _ _ => .error "TypeError: int argument must not be a date"
  | .vNone => .error "TypeError: int argument must not be NoneType"

/-- `float(value)` (`validator.py` line 91). -/
def pyFloatCoerce : Value → Except String Unit
  | .vInt _ => .ok ()
  | .vStr s => if pyFloatLitOk s then .ok () else .error "ValueError: could not convert string to float"
  | .vDate _ _ _ => .error "TypeError: float argument must not be a date"
  | .vNone => .error "TypeError: float argument must not be NoneType"

/-- `Decimal(str(value))` (`validator.py` line 93). -/
def pyDecimalCoerce (v : Value) : Except String Unit :=
  if decimalLitOk (pyStr v) then .ok () else .error "InvalidOperation"

/-- The date branch (`validator.py` lines 95-97): `datetime`/`date`
instances pass without parsing, everything else goes through
`datetime.fromisoformat(str(value))`. -/
def pyDateCoerce : Value → Except String Unit
  | .vDate _ _ _ => .ok ()
  | v => if isoDateOk (pyStr v) then .ok () else .error "ValueError: invalid isoformat string"

/-- The body of the `try` block of `_validate_row` (`validator.py`
lines 87-99), dispatching on the declared type.  Unrecognized or missing
types perform no check and cannot raise. -/
def tryBlock (typ : Option String) (v : Value) : Except String Unit :=
  match typ with
  | some "int" => pyIntCoerce v
  | some "float" => pyFloatCoerce v
  | some "decimal" => pyDecimalCoerce v
  | some "date" => pyDateCoerce v
  | some "str" => .ok ()
  | _ => .ok ()

/-- Rendering of `rule.get("type")` inside the violation message
(`f-string` of a possibly missing value). -/
def typeStr : Option String → String
  | some t => t
  | none => "None"

/-- A rule entry of the raw rules document (`cfg["columns"][field]`). -/
structure RawRule where
  required : Bool
  type : Option String
  regex : Option String
deriving DecidableEq, Repr

/-- A compiled rule: the regex has been replaced by a start-anchored
matcher function (`_regex_compiled`, semantics of `re.match`). -/
structure CompiledRule where
  required : Bool
  type : Option String
  pattern : Option (String → Bool)

/-- The DB-stored rules JSON passed to `prep_rules_from_dict`. -/
structure RulesCfg where
  columns : List (String × RawRule)
  unique_constraints : List String
  unique_mode : Option String

/-- `"regex" in r and r["regex"]`: the pattern string when present and
truthy (nonempty). -/
def regexOf (r : RawRule) : Option String :=
  match r.regex with
  | some p => if p = "" then none else some p
  | none => none

/-- The compilation loop of `prep_rules_from_dict` (`validator.py`
lines 167-172).  `compile` models `re.compile`: `none` means the pattern
is malformed and `re.error` is raised, which propagates out. -/
def compileColumns (compile : String → Option (String → Bool)) :
    List (String × RawRule) → Except String (List (String × CompiledRule))
  | [] => .ok []
  | (f, r) :: rest =>
    match regexOf r with
    | some p =>
      match compile p with
      | none => .error ("re.error: bad pattern in rule " ++ f)
      | some m =>
        match compileColumns compile rest with
        | .error e => .error e
        | .ok rs => .ok ((pyLower f, ⟨r.required, r.type, some m⟩) :: rs)
    | none =>
      match compileColumns compile rest with
      | .error e => .error e
      | .ok rs => .ok ((pyLower f, ⟨r.required, r.type, none⟩) :: rs)

/-- `prep_rules_from_dict` (`validator.py` lines 157-173): lowercases
field names and unique constraints, defaults the mode to `"ignore"`, and
compiles every regex eagerly.  A malformed regex makes the whole call
fail (the `re.error` escapes). -/
def prep_rules_from_dict (compile : String → Option (String → Bool)) (cfg : RulesCfg) :
    Except String (List (String × CompiledRule) × List String × String) :=
  match compileColumns compile cfg.columns with
  | .error e => .error e
  | .ok rules =>
      .ok (rules, cfg.unique_constraints.map pyLower, pyLower (cfg.unique_mode.getD "ignore"))

/-- The blankness test of the required check (`validator.py` line 79):
`value is None or str(value).strip() == ""`. -/
def requiredBlank (v : Value) : Bool :=
  match v with
  | .vNone => true
  | _ => pyStrip (pyStr v) == ""

/-- The skip test for non-required values (`validator.py` line 83):
`value is None or value == ""`.  Only `None` and the exact empty string
compare equal to `""` in Python. -/
def skipBlank (v : Value) : Bool :=
  match v with
  | .vNone => true
  | .vStr s => s == ""
  | _ => false

/-- `{k.lower(): v for k, v in row.items()}` (`validator.py` line 74). -/
def normalizeRow (r : Row) : Row := r.map (fun kv => (pyLower kv.1, kv.2))

/-- The duplicate violation message (`validator.py` lines 115, 118). -/
def dupMsg (uc : List String) : String := "Duplicate based on " ++ String.intercalate ", " uc

/-- Key tuple of a row under the uniqueness constraints
(`tuple(row.get(col) for col in unique_constraints)`). -/
def keyOf (uc : List String) (row : Row) : List Value := uc.map (fun c => rowGet row c)

/-- The duplicate index: key tuple to (occurrence count, first 1-based
row index). -/
abbrev DupIndex := List (List Value × (Nat × Nat))

/-- The duplicate-policy block of `_validate_row` (`validator.py`
lines 109-118). -/
def dupViolation (normalized : Row) (row_index : Nat) (dup_index : DupIndex)
    (unique_constraints : List String) (unique_mode : String) : List String :=
  if unique_constraints.isEmpty || unique_mode == "ignore" then []
  else
    let key := keyOf unique_constraints normalized
    let p := (alookup dup_index key).getD (1, row_index)
    if 1 < p.1 then
      if unique_mode == "fail_all" then [dupMsg unique_constraints]
      else if unique_mode == "keep_first" then
        if row_index ≠ p.2 then [dupMsg unique_constraints] else []
      else []
    else []

/-- One iteration of the field loop of `_validate_row` (`validator.py`
lines 77-107): the violations this field contributes.  The required
check comes first and `continue`s; blank non-required values are
skipped; a failed coercion records `<field> invalid <type>` and skips
the pattern check. -/
def fieldErrors (normalized : Row) (field : String) (rule : CompiledRule) : List String :=
  let value := rowGet normalized field
  if rule.required && requiredBlank value then
    [field ++ " is required"]
  else if skipBlank value then
    []
  else
    match tryBlock rule.type value with
    | .error _ => [field ++ " invalid " ++ typeStr rule.type]
    | .ok _ =>
      match rule.pattern with
      | some rc => if rc (pyStr value) then [] else [field ++ " does not match pattern"]
      | none => []

/-- The full `errors` list accumulated by `_validate_row`: field
violations in rule order, then the duplicate-policy violations. -/
def validateRowErrors (row : Row) (row_index : Nat) (rules : List (String × CompiledRule))
    (dup_index : DupIndex) (unique_constraints : List String) (unique_mode : String) :
    List String :=
  let normalized := normalizeRow row
  ((rules.map (fun fr => fieldErrors normalized fr.1 fr.2)).flatten) ++
    dupViolation normalized row_index dup_index unique_constraints unique_mode

/-- `_validate_row` (`validator.py` lines 61-122): the normalized row
with `Valid` and `Remarks` appended. -/
def _validate_row (row : Row) (row_index : Nat) (rules : List (String × CompiledRule))
    (dup_index : DupIndex) (unique_constraints : List String) (unique_mode : String) : Row :=
  let normalized := normalizeRow row
  let errors := validateRowErrors row row_index rules dup_index unique_constraints unique_mode
  normalized ++
    [("Valid", .vStr (if errors.isEmpty then "Success" else "Fail")),
     ("Remarks", .vStr (if errors.isEmpty then "Validated Successfully"
                        else String.intercalate ", " errors))]

/-- The field loop body with the `try`/`except` modelled in `Except`:
an `Except.error` result would be an exception escaping `_validate_row`.
The `except Exception` handler converts any coercion error into the
`invalid` violation. -/
def fieldCheckE (normalized : Row) (field : String) (rule : CompiledRule) :
    Except String (List String) :=
  let value := rowGet normalized field
  if rule.required && requiredBlank value then .ok [field ++ " is required"]
  else if skipBlank value then .ok []
  else
    match tryBlock rule.type value with
    | .error _ => .ok [field ++ " invalid " ++ typeStr rule.type]
    | .ok _ =>
      .ok (match rule.pattern with
        | some rc => if rc (pyStr value) then [] else [field ++ " does not match pattern"]
        | none => [])

/-- Sequencing of the field loop in `Except`: any escaping exception
would propagate. -/
def collectFieldErrorsE (normalized : Row) :
    List (String × CompiledRule) → Except String (List String)
  | [] => .ok []
  | fr :: rest =>
    match fieldCheckE normalized fr.1 fr.2 with
    | .error e => .error e
    | .ok e =>
      match collectFieldErrorsE normalized rest with
      | .error e2 => .error e2
      | .ok es => .ok (e ++ es)

/-- `_validate_row` with exception propagation made explicit. -/
def validateRowE (row : Row) (row_index : Nat) (rules : List (String × CompiledRule))
    (dup_index : DupIndex) (unique_constraints : List String) (unique_mode : String) :
    Except String Row :=
  let normalized := normalizeRow row
  match collectFieldErrorsE normalized rules with
  | .error e => .error e
  | .ok fieldErrs =>
    let errors := fieldErrs ++ dupViolation normalized row_index dup_index unique_constraints unique_mode
    .ok (normalized ++
      [("Valid", .vStr (if errors.isEmpty then "Success" else "Fail")),
       ("Remarks", .vStr (if errors.isEmpty then "Validated Successfully"
                          else String.intercalate ", " errors))])

/-- `counts[key] = counts.get(key, 0) + 1` on the association list. -/
def assocBump : List (List Value × Nat) → List Value → List (List Value × Nat)
  | [], k => [(k, 1)]
  | (k0, c) :: rest, k =>
    if k0 = k then (k0, c + 1) :: rest else (k0, c) :: assocBump rest k

/-- The single pass of `build_duplicate_index` (`validator.py`
lines 48-52): `for idx, row in enumerate(records, start=1)` updating
`counts` and `first_seen`. -/
def dupScan (uc : List String) :
    List Row → Nat → List (List Value × Nat) → List (List Value × Nat) →
    (List (List Value × Nat) × List (List Value × Nat))
  | [], _, counts, first_seen => (counts, first_seen)
  | row :: rest, idx, counts, first_seen =>
    let key := keyOf uc row
    dupScan uc rest (idx + 1) (assocBump counts key)
      (if (alookup first_seen key).isSome then first_seen else first_seen ++ [(key, idx)])

/-- `build_duplicate_index` (`validator.py` lines 33-56). -/
def build_duplicate_index (records : List Row) (unique_constraints : List String) : DupIndex :=
  if unique_constraints.isEmpty then []
  else
    let scanned := dupScan unique_constraints records 1 [] []
    scanned.1.map (fun kc => (kc.1, (kc.2, (alookup scanned.2 kc.1).getD 0)))

/-- `validate_chunk` (`validator.py` lines 127-150): validate a slice
serially, counting successes and failures. -/
def validate_chunk (records_slice : List Row) (start_index : Nat)
    (rules : List (String × CompiledRule)) (dup_index : DupIndex)
    (unique_constraints : List String) (unique_mode : String) : List Row × Nat × Nat :=
  match records_slice with
  | [] => ([], 0, 0)
  | row :: rest =>
    let vr := _validate_row row start_index rules dup_index unique_constraints unique_mode
    let r := validate_chunk rest (start_index + 1) rules dup_index unique_constraints unique_mode
    if rowGet vr "Valid" = .vStr "Success" then (vr :: r.1, r.2.1 + 1, r.2.2)
    else (vr :: r.1, r.2.1, r.2.2 + 1)

/-- Serial reference validation: every row in order, with its 1-based
ordinal. -/
def validateAll (l : List Row) (i : Nat) (rules : List (String × CompiledRule))
    (dup_index : DupIndex) (unique_constraints : List String) (unique_mode : String) : List Row :=
  match l with
  | [] => []
  | row :: rest =>
    _validate_row row i rules dup_index unique_constraints unique_mode ::
      validateAll rest (i + 1) rules dup_index unique_constraints unique_mode

/-- `CHUNK_SIZE` of the pipeline. -/
def CHUNK_SIZE : Nat := 5000

/-- `WORKERS` of the pipeline. -/
def WORKERS : Nat := 4

/-- `[(i, records[i:i+C]) for i in range(0, total_records, C)]`
(`validation_pipeline.py` line 74), parametric in the chunk size. -/
def chunksOf (C : Nat) (records : List Row) : List (Nat × List Row) :=
  (List.range ((records.length + C - 1) / C)).map
    (fun j => (j * C, (records.drop (j * C)).take C))

/-- `chunks[batch_start : batch_start + W]` for
`batch_start in range(0, len(chunks), W)` (`validation_pipeline.py`
lines 79-80), parametric in the worker width. -/
def groupsOf {α : Type} (n : Nat) (l : List α) : List (List α) :=
  (List.range ((l.length + n - 1) / n)).map (fun b => (l.drop (b * n)).take n)

/-- Exact-rational floor. -/
def ratFloor (q : ℚ) : ℤ := Int.fdiv q.num q.den

/-- Round-half-even to the nearest integer, the rounding Python `round`
uses, transported to exact rationals. -/
def roundHalfEven (q : ℚ) : ℤ :=
  let f := ratFloor q
  let r := q - (f : ℚ)
  if r < 1/2 then f
  else if 1/2 < r then f + 1
  else if f % 2 = 0 then f else f + 1

/-- `round(x, 2)` on exact rationals. -/
def round2 (q : ℚ) : ℚ := (roundHalfEven (q * 100) : ℚ) / 100

/-- `round((processed / total_records) * 100, 2)`
(`validation_pipeline.py` line 93), in exact arithmetic. -/
def pct (processed total : Nat) : ℚ := round2 ((processed : ℚ) / (total : ℚ) * 100)

/-- One published progress event (`validation_pipeline.py` line 95). -/
structure ProgressEvent where
  processed : Nat
  percent : ℚ
deriving DecidableEq, Repr

/-- The scheduler's accumulating state (`validated_records`, `processed`,
`total_success`, `total_failure`, plus the trace of published progress
events). -/
structure SchedState where
  validated : List Row
  processed : Nat
  success : Nat
  failure : Nat
  events : List ProgressEvent
deriving DecidableEq

/-- What `_collect_results` appends for one chunk: the chunk's start
offset paired with the `validate_chunk` result. -/
abbrev ChunkResult := Nat × (List Row × Nat × Nat)

/-- Body of the merge loop (`validation_pipeline.py` lines 87-95): extend
the results, bump the counters, publish one progress event. -/
def mergeChunk (total : Nat) (st : SchedState) (res : ChunkResult) : SchedState :=
  let cv := res.2.1
  let processed := st.processed + cv.length
  { validated := st.validated ++ cv
    processed := processed
    success := st.success + res.2.2.1
    failure := st.failure + res.2.2.2
    events := st.events ++ [⟨processed, pct processed total⟩] }

/-- `sorted(results, key=lambda x: x[0])`. -/
def sortByStart (results : List ChunkResult) : List ChunkResult :=
  List.insertionSort (fun a b => a.1 ≤ b.1) results

/-- One batch (`validation_pipeline.py` lines 79-95): dispatch the
chunks concurrently — the completion order of the task group is an
arbitrary permutation, modelled by `shuffle` — then merge the results in
ascending start order. -/
def runBatch (shuffle : List ChunkResult → List ChunkResult) (total : Nat)
    (rules : List (String × CompiledRule)) (dup_index : DupIndex)
    (unique_constraints : List String) (unique_mode : String)
    (st : SchedState) (batch : List (Nat × List Row)) : SchedState :=
  let results := shuffle (batch.map
    (fun c => (c.1, validate_chunk c.2 (c.1 + 1) rules dup_index unique_constraints unique_mode)))
  (sortByStart results).foldl (mergeChunk total) st

/-- Initial scheduler state (`validation_pipeline.py` line 75). -/
def initSchedState : SchedState := ⟨[], 0, 0, 0, []⟩

/-- The chunk scheduler (Step 4 of `run_excel_validation_pipeline`,
`validation_pipeline.py` lines 74-95), parametric in chunk size `C`,
worker width `W` and the completion-order oracle `shuffle`. -/
def runSchedule (shuffle : List ChunkResult → List ChunkResult) (C W : Nat)
    (records : List Row) (rules : List (String × CompiledRule)) (dup_index : DupIndex)
    (unique_constraints : List String) (unique_mode : String) : SchedState :=
  (groupsOf W (chunksOf C records)).foldl
    (runBatch shuffle records.length rules dup_index unique_constraints unique_mode)
    initSchedState

/-- `write_validated_excel_stream` (`excel_writer.py` lines 117-129):
`None` — no artifact — for an empty record list, otherwise the workbook
built from the records and the first row's keys as headers (the workbook
bytes themselves are presentation; the artifact is modelled by its
content). -/
def write_validated_excel_stream (validated_records : List Row) :
    Option (List Row × List String) :=
  match validated_records with
  | [] => none
  | r :: _ => some (validated_records, r.map Prod.fst)

/-- Terminal status of the audit record. -/
inductive RunStatus where
  | completed (total success failure : Nat) : RunStatus
  | failed (msg : String) : RunStatus
deriving DecidableEq, Repr

/-- Observable outcome of one pipeline run: how many input rows were
read (materialized) before the run ended, how many were validated, the
Excel artifact, and the terminal audit status. -/
structure PipeOutcome where
  rowsRead : Nat
  rowsValidated : Nat
  artifact : Option (List Row × List String)
  status : RunStatus

/-- `run_excel_validation_pipeline` (`validation_pipeline.py`
lines 21-151), with the collaborators (S3, DB, publisher) abstracted
away.  The step order mirrors the source: Step 2 materializes
`records = list(records_iter)` (line 57) BEFORE Step 3 loads and
compiles the rules (lines 65-69); a `re.error` from compilation is
caught by the outer handler and the run is marked failed.  After
validation, Step 5 calls `excel_bytes.getvalue()` (line 107)
unconditionally; when the writer returned `None` (empty input) this
raises `AttributeError`, the outer handler marks the run failed. -/
def run_excel_validation_pipeline (compile : String → Option (String → Bool))
    (cfg : RulesCfg) (C W : Nat) (shuffle : List ChunkResult → List ChunkResult)
    (records : List Row) : PipeOutcome :=
  let rowsRead := records.length
  match prep_rules_from_dict compile cfg with
  | .error e => { rowsRead := rowsRead, rowsValidated := 0, artifact := none, status := .failed e }
  | .ok res =>
    let rules := res.1
    let unique_cols := res.2.1
    let unique_mode := res.2.2
    let dup_index := build_duplicate_index records unique_cols
    let st := runSchedule shuffle C W records rules dup_index unique_cols unique_mode
    match write_validated_excel_stream st.validated with
    | none =>
      { rowsRead := rowsRead, rowsValidated := st.validated.length, artifact := none,
        status := .failed "AttributeError: NoneType object has no attribute getvalue" }
    | some art =>
      { rowsRead := rowsRead, rowsValidated := st.validated.length, artifact := some art,
        status := .completed records.length st.success st.failure }

/-- The body of the merge loop for one chunk, with its `validate_chunk`
call made explicit (what one iteration of lines 87-95 does to the
accumulated state when the results arrive in canonical order). -/
def chunkStep (total : Nat) (rules : List (String × CompiledRule)) (dup_index : DupIndex)
    (unique_constraints : List String) (unique_mode : String)
    (st : SchedState) (c : Nat × List Row) : SchedState :=
  mergeChunk total st (c.1, validate_chunk c.2 (c.1 + 1) rules dup_index unique_constraints unique_mode)

/-- Number of rows whose key tuple is `k` (specification function). -/
def countKey (uc : List String) (records : List Row) (k : List Value) : Nat :=
  records.countP (fun r => decide (keyOf uc r = k))

/-- 1-based index (offset by `i`) of the first row with key `k`
(specification function). -/
def firstIdxFrom (uc : List String) (i : Nat) (records : List Row) (k : List Value) : Option Nat :=
  match records with
  | [] => none
  | r :: rest => if keyOf uc r = k then some i else firstIdxFrom uc (i + 1) rest k

/-- All keys of a row are already lowercase (the readers lowercase the
headers), so normalization leaves the row unchanged. -/
def LowercaseRow (r : Row) : Prop := ∀ kv ∈ r, pyLower kv.1 = kv.1

instance decLowercaseRow (r : Row) : Decidable (LowercaseRow r) :=
  inferInstanceAs (Decidable (∀ kv ∈ r, pyLower kv.1 = kv.1))

/-! ## Validator-level lemmas -/

theorem fieldCheckE_eq (n : Row) (f : String) (rule : CompiledRule) :
    fieldCheckE n f rule = .ok (fieldErrors n f rule) := by
  unfold fieldCheckE fieldErrors
  by_cases h1 : (rule.required && requiredBlank (rowGet n f)) = true
  · simp [h1]
  · by_cases h2 : skipBlank (rowGet n f) = true
    · simp [h1, h2]
    · cases h : tryBlock rule.type (rowGet n f) <;>
        simp [h1, h2, h]

theorem collectFieldErrorsE_eq (n : Row) (rules : List (String × CompiledRule)) :
    collectFieldErrorsE n rules =
      .ok ((rules.map (fun fr => fieldErrors n fr.1 fr.2)).flatten) := by
  induction rules with
  | nil => rfl
  | cons fr rest ih =>
    unfold collectFieldErrorsE
    rw [fieldCheckE_eq, ih]
    simp

/-- C9: `_validate_row` never raises: for every row, ordinal, rule set,
duplicate index, unique constraints and mode, the exception-explicit
embedding returns `Except.ok` of the plain result — every coercion
failure is caught by the `except` handler and recorded as an
`<field> invalid <type>` violation, so the error branch is unreachable. -/
theorem c9_validate_row_total (row : Row) (row_index : Nat)
    (rules : List (String × CompiledRule)) (dup_index : DupIndex)
    (unique_constraints : List String) (unique_mode : String) :
    validateRowE row row_index rules dup_index unique_constraints unique_mode =
      .ok (_validate_row row row_index rules dup_index unique_constraints unique_mode) := by
  simp only [validateRowE, _validate_row, validateRowErrors, collectFieldErrorsE_eq]

/-- C4: an empty `unique_constraints` list gives the empty duplicate
index, the duplicate-policy block contributes no violation whatever the
mode and whatever duplicate index is supplied, and the error list of
`_validate_row` is exactly the field-rule violations. -/
theorem c4_empty_unique_constraints (records : List Row) (row : Row) (i : Nat)
    (rules : List (String × CompiledRule)) (dup : DupIndex) (um : String) :
    build_duplicate_index records [] = [] ∧
    dupViolation (normalizeRow row) i dup [] um = [] ∧
    validateRowErrors row i rules dup [] um =
      ((rules.map (fun fr => fieldErrors (normalizeRow row) fr.1 fr.2)).flatten) := by
  refine ⟨rfl, rfl, ?_⟩
  simp [validateRowErrors, dupViolation]

/-- C5: for a required field rule and an absent/blank value, the field
check contributes exactly the `<field> is required` violation — the
required check short-circuits, so no `invalid <type>` or pattern
violation is produced for that field — and that violation appears in
the row's error list. -/
theorem c5_required_short_circuits (row : Row) (i : Nat)
    (rules : List (String × CompiledRule)) (dup : DupIndex) (uc : List String) (um : String)
    (f : String) (rule : CompiledRule)
    (hmem : (f, rule) ∈ rules) (hreq : rule.required = true)
    (hblank : requiredBlank (rowGet (normalizeRow row) f) = true) :
    fieldErrors (normalizeRow row) f rule = [f ++ " is required"] ∧
    (f ++ " is required") ∈ validateRowErrors row i rules dup uc um := by
  have h1 : fieldErrors (normalizeRow row) f rule = [f ++ " is required"] := by
    unfold fieldErrors
    simp [hreq, hblank]
  refine ⟨h1, ?_⟩
  unfold validateRowErrors
  apply List.mem_append_left
  apply List.mem_flatten.mpr
  refine ⟨[f ++ " is required"], ?_, List.mem_singleton.mpr rfl⟩
  exact List.mem_map.mpr ⟨(f, rule), hmem, h1⟩

/-- Witness for C5 at a concrete input: a required `age` field absent
from the row. -/
theorem c5_witness :
    fieldErrors (normalizeRow [("age", Value.vNone)]) "age"
        ⟨true, some "int", none⟩ = ["age is required"] ∧
    ("age is required") ∈ validateRowErrors [("age", Value.vNone)] 1
        [("age", ⟨true, some "int", none⟩)] [] [] "ignore" :=
  c5_required_short_circuits [("age", Value.vNone)] 1
    [("age", ⟨true, some "int", none⟩)] [] [] "ignore" "age" ⟨true, some "int", none⟩
    (List.Mem.head _) rfl (by decide)

/-- C10: the skip test of non-required fields accepts only `None` and
the exact empty string; a whitespace-only string is blank for the
required check but not skipped, so it reaches type coercion, and a
failing coercion produces the `invalid <type>` violation (concretely,
`" "` with declared type `int`). -/
theorem c10_blank_asymmetry (n : Row) (f : String) (rule : CompiledRule)
    (hreq : rule.required = false) :
    (∀ v : Value, skipBlank v = true ↔ (v = .vNone ∨ v = .vStr "")) ∧
    requiredBlank (.vStr " ") = true ∧
    skipBlank (.vStr " ") = false ∧
    (skipBlank (rowGet n f) = false →
      (tryBlock rule.type (rowGet n f)).isOk = false →
      fieldErrors n f rule = [f ++ " invalid " ++ typeStr rule.type]) ∧
    (rule.type = some "int" → rowGet n f = .vStr " " →
      fieldErrors n f rule = [f ++ " invalid " ++ "int"]) := by
  refine ⟨?_, by decide, by decide, ?_, ?_⟩
  · intro v
    cases v <;> simp [skipBlank]
  · intro hskip hcoerce
    cases h : tryBlock rule.type (rowGet n f) with
    | error e => simp [fieldErrors, hreq, hskip, h]
    | ok u => rw [h] at hcoerce; exact Bool.noConfusion hcoerce
  · intro htyp hval
    have h2 : tryBlock (some "int") (rowGet n f) =
        .error "ValueError: invalid literal for int" := by
      rw [hval]; rfl
    have hskip : skipBlank (rowGet n f) = false := by rw [hval]; rfl
    simp only [fieldErrors, hreq, hskip, htyp, h2, Bool.false_and, if_false,
      Bool.false_eq_true, ite_false]
    rfl

/-- Witness for C10 at a concrete input: non-required `int` field whose
value is the one-space string. -/
theorem c10_witness :
    (∀ v : Value, skipBlank v = true ↔ (v = .vNone ∨ v = .vStr "")) ∧
    requiredBlank (.vStr " ") = true ∧
    skipBlank (.vStr " ") = false ∧
    (skipBlank (rowGet [("qty", Value.vStr " ")] "qty") = false →
      (tryBlock (CompiledRule.mk false (some "int") none).type
          (rowGet [("qty", Value.vStr " ")] "qty")).isOk = false →
      fieldErrors [("qty", Value.vStr " ")] "qty" ⟨false, some "int", none⟩ =
        ["qty" ++ " invalid " ++ typeStr (some "int")]) ∧
    ((CompiledRule.mk false (some "int") none).type = some "int" →
      rowGet [("qty", Value.vStr " ")] "qty" = .vStr " " →
      fieldErrors [("qty", Value.vStr " ")] "qty" ⟨false, some "int", none⟩ =
        ["qty" ++ " invalid " ++ "int"]) :=
  c10_blank_asymmetry [("qty", Value.vStr " ")] "qty" ⟨false, some "int", none⟩ rfl

/-! ## Duplicate-index lemmas (C3) -/

theorem alookup_append_single {κ β : Type} [DecidableEq κ]
    (m : List (κ × β)) (k0 : κ) (v : β) (k : κ) :
    alookup (m ++ [(k0, v)]) k =
      (match alookup m k with
       | some w => some w
       | none => if k0 = k then some v else none) := by
  induction m with
  | nil => rfl
  | cons p rest ih =>
    cases p with
    | mk kp vp =>
      by_cases h : kp = k
      · simp [alookup, h]
      · simpa [alookup, h] using ih

theorem assocBump_alookup (m : List (List Value × Nat)) (key k : List Value) :
    alookup (assocBump m key) k =
      (if key = k then some ((alookup m k).getD 0 + 1) else alookup m k) := by
  induction m with
  | nil =>
    by_cases h : key = k <;> simp [assocBump, alookup, h]
  | cons p rest ih =>
    match p with
    | (k0, c) =>
      by_cases h0 : k0 = key
      · subst h0
        by_cases h : k0 = k
        · subst h; simp [assocBump, alookup]
        · simp [assocBump, alookup, h]
      · by_cases h : k0 = k
        · subst h
          have : ¬ key = k0 := fun e => h0 e.symm
          simp [assocBump, h0, alookup, this]
        · simp [assocBump, h0, alookup, h, ih]

theorem countKey_cons (uc : List String) (r : Row) (rest : List Row) (k : List Value) :
    countKey uc (r :: rest) k =
      countKey uc rest k + (if keyOf uc r = k then 1 else 0) := by
  simp [countKey, List.countP_cons]

/-- Invariant of the single pass of `build_duplicate_index`: the counts
map accumulates occurrence counts, and the first-seen map records the
first index of each new key. -/
theorem dupScan_spec (uc : List String) (records : List Row) :
    ∀ (i : Nat) (cs fs : List (List Value × Nat)),
      (∀ k, (alookup (dupScan uc records i cs fs).1 k).getD 0 =
            (alookup cs k).getD 0 + countKey uc records k) ∧
      (∀ k, (alookup (dupScan uc records i cs fs).1 k).isSome =
            ((alookup cs k).isSome || decide (0 < countKey uc records k))) ∧
      (∀ k, alookup (dupScan uc records i cs fs).2 k =
            (match alookup fs k with
             | some v => some v
             | none => firstIdxFrom uc i records k)) := by
  induction records with
  | nil =>
    intro i cs fs
    refine ⟨fun k => ?_, fun k => ?_, fun k => ?_⟩
    · simp [dupScan, countKey]
    · simp [dupScan, countKey]
    · simp only [dupScan, firstIdxFrom]
      cases alookup fs k <;> rfl
  | cons r rest ih =>
    intro i cs fs
    have key := keyOf uc r
    obtain ⟨ih1, ih2, ih3⟩ := ih (i + 1) (assocBump cs (keyOf uc r))
      (if (alookup fs (keyOf uc r)).isSome then fs else fs ++ [(keyOf uc r, i)])
    refine ⟨fun k => ?_, fun k => ?_, fun k => ?_⟩
    · rw [show dupScan uc (r :: rest) i cs fs =
            dupScan uc rest (i + 1) (assocBump cs (keyOf uc r))
              (if (alookup fs (keyOf uc r)).isSome then fs
               else fs ++ [(keyOf uc r, i)]) from rfl]
      rw [ih1, assocBump_alookup, countKey_cons]
      by_cases h : keyOf uc r = k <;> simp [h] <;> omega
    · rw [show dupScan uc (r :: rest) i cs fs =
            dupScan uc rest (i + 1) (assocBump cs (keyOf uc r))
              (if (alookup fs (keyOf uc r)).isSome then fs
               else fs ++ [(keyOf uc r, i)]) from rfl]
      rw [ih2, assocBump_alookup, countKey_cons]
      by_cases h : keyOf uc r = k
      · simp [h]
      · simp [h]
    · rw [show dupScan uc (r :: rest) i cs fs =
            dupScan uc rest (i + 1) (assocBump cs (keyOf uc r))
              (if (alookup fs (keyOf uc r)).isSome then fs
               else fs ++ [(keyOf uc r, i)]) from rfl]
      rw [ih3]
      by_cases hseen : (alookup fs (keyOf uc r)).isSome
      · simp only [hseen, if_true]
        cases hfk : alookup fs k with
        | some v => rfl
        | none =>
          have hne : keyOf uc r ≠ k := by
            intro e; rw [e, hfk] at hseen; simp at hseen
          simp [firstIdxFrom, hne]
      · simp only [hseen, if_false, Bool.false_eq_true]
        rw [alookup_append_single]
        cases hfk : alookup fs k with
        | some v => rfl
        | none =>
          by_cases h : keyOf uc r = k
          · simp [h, firstIdxFrom]
          · simp [h, firstIdxFrom]

theorem firstIdxFrom_isSome (uc : List String) (records : List Row) (k : List Value) :
    ∀ i, (firstIdxFrom uc i records k).isSome = decide (0 < countKey uc records k) := by
  induction records with
  | nil => intro i; simp [firstIdxFrom, countKey]
  | cons r rest ih =>
    intro i
    rw [countKey_cons]
    by_cases h : keyOf uc r = k
    · simp [firstIdxFrom, h]
    · simp [firstIdxFrom, h, ih (i + 1)]

theorem alookup_map_val {κ β γ : Type} [DecidableEq κ]
    (m : List (κ × β)) (g : κ → β → γ) (k : κ) :
    alookup (m.map (fun p => (p.1, g p.1 p.2))) k = (alookup m k).map (g k) := by
  induction m with
  | nil => rfl
  | cons p rest ih =>
    by_cases h : p.1 = k
    · subst h; simp [alookup]
    · simp [alookup, h, ih]

/-- `build_duplicate_index` is correct: looking up a key gives exactly
its occurrence count together with the 1-based ordinal of its first
occurrence (and nothing for keys that never occur). -/
theorem build_duplicate_index_alookup (records : List Row) (uc : List String)
    (huc : uc ≠ []) (k : List Value) :
    alookup (build_duplicate_index records uc) k =
      (firstIdxFrom uc 1 records k).map (fun f => (countKey uc records k, f)) := by
  have hne : uc.isEmpty = false := by cases uc with
    | nil => exact absurd rfl huc
    | cons a l => rfl
  unfold build_duplicate_index
  rw [hne]
  simp only [Bool.false_eq_true, if_false]
  obtain ⟨h1, h2, h3⟩ := dupScan_spec uc records 1 [] []
  rw [alookup_map_val (dupScan uc records 1 [] []).1
    (fun k1 c => (c, (alookup (dupScan uc records 1 [] []).2 k1).getD 0)) k]
  have hfs : alookup (dupScan uc records 1 [] []).2 k = firstIdxFrom uc 1 records k := by
    rw [h3 k]; rfl
  cases hcnt : countKey uc records k with
  | zero =>
    have hnone : alookup (dupScan uc records 1 [] []).1 k = none := by
      have hiss := h2 k
      rw [hcnt] at hiss
      simp [alookup] at hiss
      exact hiss
    have hfnone : firstIdxFrom uc 1 records k = none := by
      have := firstIdxFrom_isSome uc records k 1
      rw [hcnt] at this
      simp at this
      exact this
    rw [hnone, hfnone]
    rfl
  | succ c =>
    have hsome : (alookup (dupScan uc records 1 [] []).1 k).isSome = true := by
      rw [h2 k, hcnt]; simp
    obtain ⟨v, hv⟩ := Option.isSome_iff_exists.mp hsome
    have hval : v = c + 1 := by
      have := h1 k
      rw [hcnt, hv] at this
      simpa [alookup] using this
    have hfsome : (firstIdxFrom uc 1 records k).isSome = true := by
      rw [firstIdxFrom_isSome uc records k 1, hcnt]; simp
    obtain ⟨f0, hf0⟩ := Option.isSome_iff_exists.mp hfsome
    rw [hv, hval, hfs, hf0]
    simp

theorem normalizeRow_eq_self (r : Row) (h : LowercaseRow r) : normalizeRow r = r := by
  induction r with
  | nil => rfl
  | cons kv rest ih =>
    have hh := h kv (List.mem_cons_self kv rest)
    have ht : LowercaseRow rest := fun p hp => h p (List.mem_cons_of_mem kv hp)
    simp only [normalizeRow, List.map_cons]
    rw [hh]
    have := ih ht
    simp only [normalizeRow] at this
    rw [this]

/-- C3: with a non-empty uniqueness key, under `fail_all` every row
whose key tuple occurs more than once receives the duplicate violation
naming the key fields; under `keep_first` every such row except the
first-seen occurrence receives it, and the duplicate-policy block
contributes nothing for the first-seen row. -/
theorem c3_duplicate_modes (records : List Row) (uc : List String)
    (rules : List (String × CompiledRule)) (um : String) (i : Nat) (row : Row)
    (huc : uc ≠ []) (hlc : ∀ r ∈ records, LowercaseRow r)
    (hrow : records.get? i = some row)
    (hcnt : 1 < countKey uc records (keyOf uc row)) :
    (um = "fail_all" →
      dupMsg uc ∈ validateRowErrors row (i + 1) rules (build_duplicate_index records uc) uc um) ∧
    (um = "keep_first" →
      ∀ f0, firstIdxFrom uc 1 records (keyOf uc row) = some f0 →
        (i + 1 ≠ f0 →
          dupMsg uc ∈ validateRowErrors row (i + 1) rules (build_duplicate_index records uc) uc um) ∧
        (i + 1 = f0 →
          dupViolation (normalizeRow row) (i + 1) (build_duplicate_index records uc) uc um = [])) := by
  have hmem : row ∈ records := List.get?_mem hrow
  have hnorm : normalizeRow row = row := normalizeRow_eq_self row (hlc row hmem)
  have hne : uc.isEmpty = false := by cases uc with
    | nil => exact absurd rfl huc
    | cons a l => rfl
  have hfsome : (firstIdxFrom uc 1 records (keyOf uc row)).isSome = true := by
    rw [firstIdxFrom_isSome uc records (keyOf uc row) 1]
    simp
    omega
  obtain ⟨f0, hf0⟩ := Option.isSome_iff_exists.mp hfsome
  have hidx : alookup (build_duplicate_index records uc) (keyOf uc row) =
      some (countKey uc records (keyOf uc row), f0) := by
    rw [build_duplicate_index_alookup records uc huc, hf0]
    rfl
  constructor
  · intro hum
    subst hum
    have hdv : dupViolation (normalizeRow row) (i + 1) (build_duplicate_index records uc) uc
        "fail_all" = [dupMsg uc] := by
      unfold dupViolation
      rw [hnorm]
      have hkey : keyOf uc row = keyOf uc row := rfl
      simp only [hne, Bool.false_eq_true, false_or, if_false, Bool.or_self]
      rw [hidx]
      simp [hcnt]
    unfold validateRowErrors
    apply List.mem_append_right
    rw [hdv]
    exact List.mem_singleton.mpr rfl
  · intro hum f1 hf1
    subst hum
    have hf01 : f1 = f0 := by rw [hf0] at hf1; exact (Option.some_inj.mp hf1).symm
    subst hf01
    constructor
    · intro hne1
      have hdv : dupViolation (normalizeRow row) (i + 1) (build_duplicate_index records uc) uc
          "keep_first" = [dupMsg uc] := by
        unfold dupViolation
        rw [hnorm]
        simp only [hne, Bool.false_eq_true, false_or, if_false, Bool.or_self]
        rw [hidx]
        simp [hcnt, hne1]
      unfold validateRowErrors
      apply List.mem_append_right
      rw [hdv]
      exact List.mem_singleton.mpr rfl
    · intro heq
      unfold dupViolation
      rw [hnorm]
      simp only [hne, Bool.false_eq_true, false_or, if_false, Bool.or_self]
      rw [hidx]
      simp [hcnt, heq]

/-- Witness for C3 (`fail_all` branch) at a concrete input: two rows
sharing the `email` key both marked duplicate; here the second row. -/
theorem c3_witness :
    dupMsg ["email"] ∈ validateRowErrors [("email", Value.vStr "a")] 2 []
      (build_duplicate_index [[("email", Value.vStr "a")], [("email", Value.vStr "a")]] ["email"])
      ["email"] "fail_all" :=
  (c3_duplicate_modes [[("email", Value.vStr "a")], [("email", Value.vStr "a")]] ["email"]
    [] "fail_all" 1 [("email", Value.vStr "a")]
    (by decide) (by decide) rfl (by decide)).1 rfl

/-! ## Chunk-scheduler lemmas (C1, C2, C8) -/

theorem validate_chunk_fst (rules : List (String × CompiledRule)) (dup : DupIndex)
    (uc : List String) (um : String) :
    ∀ (l : List Row) (i : Nat),
      (validate_chunk l i rules dup uc um).1 = validateAll l i rules dup uc um := by
  intro l
  induction l with
  | nil => intro i; rfl
  | cons r rest ih =>
    intro i
    unfold validate_chunk validateAll
    by_cases h : rowGet (_validate_row r i rules dup uc um) "Valid" = Value.vStr "Success" <;>
      simp [h, ih (i + 1)]

theorem validate_chunk_counts (rules : List (String × CompiledRule)) (dup : DupIndex)
    (uc : List String) (um : String) :
    ∀ (l : List Row) (i : Nat),
      (validate_chunk l i rules dup uc um).2.1 + (validate_chunk l i rules dup uc um).2.2 =
        l.length := by
  intro l
  induction l with
  | nil => intro i; rfl
  | cons r rest ih =>
    intro i
    unfold validate_chunk
    by_cases h : rowGet (_validate_row r i rules dup uc um) "Valid" = Value.vStr "Success" <;>
      simp [h] <;> have := ih (i + 1) <;> omega

theorem validateAll_length (rules : List (String × CompiledRule)) (dup : DupIndex)
    (uc : List String) (um : String) :
    ∀ (l : List Row) (i : Nat), (validateAll l i rules dup uc um).length = l.length := by
  intro l
  induction l with
  | nil => intro i; rfl
  | cons r rest ih => intro i; simp [validateAll, ih (i + 1)]

theorem validateAll_cons (rules : List (String × CompiledRule)) (dup : DupIndex)
    (uc : List String) (um : String) (x : Row) (xs : List Row) (i : Nat) :
    validateAll (x :: xs) i rules dup uc um =
      _validate_row x i rules dup uc um :: validateAll xs (i + 1) rules dup uc um := rfl

theorem validateAll_append (rules : List (String × CompiledRule)) (dup : DupIndex)
    (uc : List String) (um : String) :
    ∀ (a b : List Row) (i : Nat),
      validateAll (a ++ b) i rules dup uc um =
        validateAll a i rules dup uc um ++ validateAll b (i + a.length) rules dup uc um := by
  intro a
  induction a with
  | nil => intro b i; simp [validateAll]
  | cons r rest ih =>
    intro b i
    simp only [List.cons_append, validateAll_cons, ih b (i + 1), List.length_cons]
    rw [show i + (rest.length + 1) = i + 1 + rest.length from by omega]

instance : IsTotal ChunkResult (fun a b => a.1 ≤ b.1) :=
  ⟨fun a b => Nat.le_total a.1 b.1⟩

instance : IsTrans ChunkResult (fun a b => a.1 ≤ b.1) :=
  ⟨fun _ _ _ h1 h2 => Nat.le_trans h1 h2⟩

instance : IsAntisymm ChunkResult (fun a b => a.1 < b.1) :=
  ⟨fun a b h h2 => absurd (Nat.lt_trans h h2) (Nat.lt_irrefl _)⟩

/-- Sorting any permutation of a start-sorted result list recovers the
canonical order: chunk completion order cannot change the merge order. -/
theorem sortByStart_of_sorted (l l2 : List ChunkResult)
    (hp : l2.Perm l) (hs : l.Pairwise (fun a b => a.1 < b.1)) : sortByStart l2 = l := by
  have hs2le : List.Sorted (fun a b : ChunkResult => a.1 ≤ b.1) (sortByStart l2) :=
    List.sorted_insertionSort _ l2
  have hperm : (sortByStart l2).Perm l :=
    (List.perm_insertionSort (fun a b : ChunkResult => a.1 ≤ b.1) l2).trans hp
  have hnodupl : (l.map Prod.fst).Pairwise (· ≠ ·) :=
    List.pairwise_map.mpr (hs.imp fun h => Nat.ne_of_lt h)
  have hnodup2 : ((sortByStart l2).map Prod.fst).Pairwise (· ≠ ·) := by
    have hpm : ((sortByStart l2).map Prod.fst).Perm (l.map Prod.fst) := hperm.map Prod.fst
    exact (hpm.pairwise_iff (fun h => Ne.symm h)).mpr hnodupl
  have hs2lt : (sortByStart l2).Pairwise (fun a b : ChunkResult => a.1 < b.1) := by
    have hcomb := List.Pairwise.and hs2le (List.pairwise_map.mp hnodup2)
    exact hcomb.imp fun h => Nat.lt_of_le_of_ne h.1 h.2
  exact List.eq_of_perm_of_sorted hperm hs2lt hs

theorem ceil_div_mul_ge (a n : Nat) (hn : 0 < n) : a ≤ ((a + n - 1) / n) * n := by
  rcases Nat.eq_zero_or_pos a with h | h
  · subst h; simp
  · have hq : (a + n - 1) / n = (a - 1) / n + 1 := by
      rw [show a + n - 1 = (a - 1) + n from by omega, Nat.add_div_right _ hn]
    rw [hq]
    have hlt : (a - 1) / n < (a - 1) / n + 1 := Nat.lt_succ_self _
    have := (Nat.div_lt_iff_lt_mul hn).mp hlt
    exact Nat.le_of_pred_lt this

theorem lt_len_of_lt_ceil (j C len : Nat) (hC : 0 < C)
    (h : j < (len + C - 1) / C) : j * C < len := by
  have h1 : (j + 1) * C ≤ len + C - 1 := (Nat.le_div_iff_mul_le hC).mp h
  have hlen : 0 < len := by
    by_contra h0
    have hl0 : len = 0 := by omega
    subst hl0
    have : (0 + C - 1) / C = 0 := Nat.div_eq_of_lt (by omega)
    omega
  rw [Nat.succ_mul] at h1
  generalize j * C = A at h1 ⊢
  omega

theorem flatten_range_take {α : Type} (n : Nat) (l : List α) :
    ∀ m, ((List.range m).map (fun b => (l.drop (b * n)).take n)).flatten = l.take (m * n) := by
  intro m
  induction m with
  | zero => simp
  | succ m ih =>
    rw [List.range_succ, List.map_append, List.flatten_append, ih]
    simp only [List.map_cons, List.map_nil, List.flatten_cons, List.flatten_nil, List.append_nil]
    rw [Nat.succ_mul, List.take_add]

theorem groupsOf_flatten {α : Type} (n : Nat) (hn : 0 < n) (l : List α) :
    (groupsOf n l).flatten = l := by
  unfold groupsOf
  rw [flatten_range_take n l]
  exact List.take_of_length_le (ceil_div_mul_ge l.length n hn)

theorem groupsOf_mem_sublist {α : Type} (n : Nat) (l : List α) (g : List α)
    (hg : g ∈ groupsOf n l) : List.Sublist g l := by
  unfold groupsOf at hg
  obtain ⟨b, _, hb⟩ := List.mem_map.mp hg
  rw [← hb]
  exact ((l.drop (b * n)).take_sublist n).trans (l.drop_sublist (b * n))

theorem chunksOf_pairwise (C : Nat) (hC : 0 < C) (records : List Row) :
    (chunksOf C records).Pairwise (fun a b => a.1 < b.1) := by
  unfold chunksOf
  rw [List.pairwise_map]
  exact (List.pairwise_lt_range _).imp (fun h => (Nat.mul_lt_mul_right hC).mpr h)

theorem chunksOf_snd_ne_nil (C : Nat) (hC : 0 < C) (records : List Row)
    (c : Nat × List Row) (hc : c ∈ chunksOf C records) : c.2 ≠ [] := by
  unfold chunksOf at hc
  obtain ⟨j, hj, hcj⟩ := List.mem_map.mp hc
  rw [List.mem_range] at hj
  rw [← hcj]
  have hlt : j * C < records.length := lt_len_of_lt_ceil j C records.length hC hj
  have hdrop : records.drop (j * C) ≠ [] := by
    intro hnil
    have := List.length_drop (j * C) records
    rw [hnil] at this
    simp at this
    omega
  cases hd : records.drop (j * C) with
  | nil => exact absurd hd hdrop
  | cons x xs =>
    cases C with
    | zero => exact absurd hC (by omega)
    | succ c0 => simp [List.take]

theorem chunksOf_map_snd_flatten (C : Nat) (hC : 0 < C) (records : List Row) :
    ((chunksOf C records).map (fun c => c.2)).flatten = records := by
  unfold chunksOf
  rw [List.map_map]
  have : ((fun c : Nat × List Row => c.2) ∘ fun j => (j * C, (records.drop (j * C)).take C)) =
      fun j => (records.drop (j * C)).take C := rfl
  rw [this, flatten_range_take C records]
  exact List.take_of_length_le (ceil_div_mul_ge records.length C hC)

/-- Within one batch, the nondeterministic completion order is cancelled
by the sort: processing a batch equals folding the merge step over the
batch's chunks in order. -/
theorem runBatch_eq_foldl (shuffle : List ChunkResult → List ChunkResult)
    (hsh : ∀ l, (shuffle l).Perm l) (total : Nat)
    (rules : List (String × CompiledRule)) (dup : DupIndex) (uc : List String) (um : String)
    (st : SchedState) (batch : List (Nat × List Row))
    (hb : batch.Pairwise (fun a b => a.1 < b.1)) :
    runBatch shuffle total rules dup uc um st batch =
      batch.foldl (chunkStep total rules dup uc um) st := by
  unfold runBatch
  have hmap : (batch.map fun c =>
      (c.1, validate_chunk c.2 (c.1 + 1) rules dup uc um)).Pairwise
      (fun a b : ChunkResult => a.1 < b.1) := by
    rw [List.pairwise_map]
    exact hb
  show List.foldl (mergeChunk total) st
      (sortByStart (shuffle (batch.map fun c =>
        (c.1, validate_chunk c.2 (c.1 + 1) rules dup uc um)))) =
    batch.foldl (chunkStep total rules dup uc um) st
  rw [sortByStart_of_sorted _ _ (hsh _) hmap, List.foldl_map]
  rfl

theorem foldl_runBatch_groups (shuffle : List ChunkResult → List ChunkResult)
    (hsh : ∀ l, (shuffle l).Perm l) (total : Nat)
    (rules : List (String × CompiledRule)) (dup : DupIndex) (uc : List String) (um : String) :
    ∀ (groups : List (List (Nat × List Row))) (st : SchedState),
      (∀ g ∈ groups, g.Pairwise (fun a b => a.1 < b.1)) →
      groups.foldl (runBatch shuffle total rules dup uc um) st =
        groups.flatten.foldl (chunkStep total rules dup uc um) st := by
  intro groups
  induction groups with
  | nil => intro st h; rfl
  | cons g gs ih =>
    intro st h
    rw [List.foldl_cons, List.flatten_cons, List.foldl_append]
    rw [runBatch_eq_foldl shuffle hsh total rules dup uc um st g (h g (List.mem_cons_self g gs))]
    exact ih _ (fun g2 hg2 => h g2 (List.mem_cons_of_mem g hg2))

/-- The scheduler, for any permutation oracle, equals the serial fold
over the chunks in canonical order. -/
theorem runSchedule_eq_serial (shuffle : List ChunkResult → List ChunkResult)
    (hsh : ∀ l, (shuffle l).Perm l) (C W : Nat) (hC : 0 < C) (hW : 0 < W)
    (records : List Row) (rules : List (String × CompiledRule)) (dup : DupIndex)
    (uc : List String) (um : String) :
    runSchedule shuffle C W records rules dup uc um =
      (chunksOf C records).foldl (chunkStep records.length rules dup uc um) initSchedState := by
  unfold runSchedule
  rw [foldl_runBatch_groups shuffle hsh records.length rules dup uc um
    (groupsOf W (chunksOf C records)) initSchedState
    (fun g hg => (chunksOf_pairwise C hC records).sublist
      (groupsOf_mem_sublist W (chunksOf C records) g hg))]
  rw [groupsOf_flatten W hW (chunksOf C records)]

/-- Closed form for the validated output of the serial fold over
`chunksOf`: the serial validation of all rows, in input order, starting
at ordinal 1. -/
theorem serial_validated (C : Nat) (records : List Row)
    (rules : List (String × CompiledRule)) (dup : DupIndex) (uc : List String) (um : String) :
    ∀ (m : Nat) (st : SchedState),
      ((((List.range m).map (fun j => (j * C, (records.drop (j * C)).take C))).foldl
        (chunkStep records.length rules dup uc um) st).validated) =
        st.validated ++ validateAll (records.take (m * C)) 1 rules dup uc um := by
  intro m
  induction m with
  | zero => intro st; simp [validateAll]
  | succ m ih =>
    intro st
    rw [List.range_succ, List.map_append, List.foldl_append]
    simp only [List.map_cons, List.map_nil, List.foldl_cons, List.foldl_nil]
    rw [show ∀ st2 : SchedState, (chunkStep records.length rules dup uc um st2
        (m * C, (records.drop (m * C)).take C)).validated =
        st2.validated ++ (validate_chunk ((records.drop (m * C)).take C) (m * C + 1)
          rules dup uc um).1 from fun st2 => rfl]
    rw [ih st, validate_chunk_fst]
    rw [List.append_assoc]
    congr 1
    by_cases hlen : records.length ≤ m * C
    · have h1 : records.take (m * C) = records := List.take_of_length_le hlen
      have h2 : records.drop (m * C) = [] := List.drop_eq_nil_of_le hlen
      have h3 : records.take (m * C + C) = records := by
        apply List.take_of_length_le; omega
      rw [h1, h2, Nat.succ_mul, h3]
      simp [validateAll]
    · push_neg at hlen
      rw [Nat.succ_mul, List.take_add]
      rw [validateAll_append]
      have hl : (records.take (m * C)).length = m * C := by
        rw [List.length_take]
        omega
      rw [hl]
      rw [show 1 + m * C = m * C + 1 from by omega]

theorem foldl_chunkStep_counts (total : Nat) (rules : List (String × CompiledRule))
    (dup : DupIndex) (uc : List String) (um : String) :
    ∀ (chunks : List (Nat × List Row)) (st : SchedState),
      (chunks.foldl (chunkStep total rules dup uc um) st).success +
        (chunks.foldl (chunkStep total rules dup uc um) st).failure =
      st.success + st.failure + ((chunks.map (fun c => c.2.length)).sum) := by
  intro chunks
  induction chunks with
  | nil => intro st; simp
  | cons c rest ih =>
    intro st
    rw [List.foldl_cons, ih]
    have hc := validate_chunk_counts rules dup uc um c.2 (c.1 + 1)
    simp only [chunkStep, mergeChunk, List.map_cons, List.sum_cons]
    omega

theorem validate_chunk_length (rules : List (String × CompiledRule)) (dup : DupIndex)
    (uc : List String) (um : String) (l : List Row) (i : Nat) :
    (validate_chunk l i rules dup uc um).1.length = l.length := by
  rw [validate_chunk_fst, validateAll_length]

theorem foldl_chunkStep_events_len (total : Nat) (rules : List (String × CompiledRule))
    (dup : DupIndex) (uc : List String) (um : String) :
    ∀ (chunks : List (Nat × List Row)) (st : SchedState),
      (chunks.foldl (chunkStep total rules dup uc um) st).events.length =
        st.events.length + chunks.length := by
  intro chunks
  induction chunks with
  | nil => intro st; simp
  | cons c rest ih =>
    intro st
    rw [List.foldl_cons, ih]
    simp only [chunkStep, mergeChunk, List.length_append, List.length_cons, List.length_nil]
    omega

/-- Invariant of the merge fold: the published `processed` values are
strictly increasing, bounded by the current processed count, and every
event's percent is the exact-rational rounding of its processed share. -/
theorem foldl_chunkStep_events_inv (total : Nat) (rules : List (String × CompiledRule))
    (dup : DupIndex) (uc : List String) (um : String) :
    ∀ (chunks : List (Nat × List Row)) (st : SchedState),
      (∀ c ∈ chunks, c.2 ≠ []) →
      ((st.events.map (fun e => e.processed)).Pairwise (· < ·) ∧
       (∀ e ∈ st.events, e.processed ≤ st.processed) ∧
       (∀ e ∈ st.events, e.percent = pct e.processed total)) →
      ((((chunks.foldl (chunkStep total rules dup uc um) st).events.map
          (fun e => e.processed)).Pairwise (· < ·)) ∧
       (∀ e ∈ (chunks.foldl (chunkStep total rules dup uc um) st).events,
          e.processed ≤ (chunks.foldl (chunkStep total rules dup uc um) st).processed) ∧
       (∀ e ∈ (chunks.foldl (chunkStep total rules dup uc um) st).events,
          e.percent = pct e.processed total)) := by
  intro chunks
  induction chunks with
  | nil => intro st _ h; exact h
  | cons c rest ih =>
    intro st hne ⟨h1, h2, h3⟩
    rw [List.foldl_cons]
    apply ih _ (fun c2 hc2 => hne c2 (List.mem_cons_of_mem c hc2))
    have hlen : 0 < (validate_chunk c.2 (c.1 + 1) rules dup uc um).1.length := by
      rw [validate_chunk_length]
      cases hcc : c.2 with
      | nil => exact absurd hcc (hne c (List.mem_cons_self c rest))
      | cons x xs => simp
    refine ⟨?_, ?_, ?_⟩
    · simp only [chunkStep, mergeChunk, List.map_append, List.map_cons, List.map_nil]
      rw [List.pairwise_append]
      refine ⟨h1, List.pairwise_singleton _ _, ?_⟩
      intro x hx y hy
      rw [List.mem_singleton] at hy
      subst hy
      obtain ⟨e, he, hex⟩ := List.mem_map.mp hx
      rw [← hex]
      have := h2 e he
      omega
    · intro e he
      simp only [chunkStep, mergeChunk, List.mem_append, List.mem_singleton] at he
      simp only [chunkStep, mergeChunk]
      rcases he with he | he
      · have := h2 e he; omega
      · subst he; simp
    · intro e he
      simp only [chunkStep, mergeChunk, List.mem_append, List.mem_singleton] at he
      rcases he with he | he
      · exact h3 e he
      · subst he; rfl

/-- C1: for every rule set and row sequence, every chunk size, worker
width and completion order, the scheduler's aggregate counts satisfy
`success_count + failure_count = total_records`. -/
theorem c1_success_failure_total (shuffle : List ChunkResult → List ChunkResult)
    (hsh : ∀ l, (shuffle l).Perm l) (C W : Nat) (hC : 0 < C) (hW : 0 < W)
    (records : List Row) (rules : List (String × CompiledRule)) (dup : DupIndex)
    (uc : List String) (um : String) :
    (runSchedule shuffle C W records rules dup uc um).success +
      (runSchedule shuffle C W records rules dup uc um).failure = records.length := by
  rw [runSchedule_eq_serial shuffle hsh C W hC hW records rules dup uc um]
  rw [foldl_chunkStep_counts]
  have h1 : ((chunksOf C records).map (fun c => c.2)).flatten.length = records.length := by
    rw [chunksOf_map_snd_flatten C hC records]
  rw [List.length_flatten, List.map_map] at h1
  simp only [initSchedState]
  simpa using h1

/-- C2: for every row sequence, chunk size, worker width and completion
order, the scheduler's final ValidatedRow sequence equals the serial
in-order validation of the input rows — concurrency never reorders the
output. -/
theorem c2_order_preserved (shuffle : List ChunkResult → List ChunkResult)
    (hsh : ∀ l, (shuffle l).Perm l) (C W : Nat) (hC : 0 < C) (hW : 0 < W)
    (records : List Row) (rules : List (String × CompiledRule)) (dup : DupIndex)
    (uc : List String) (um : String) :
    (runSchedule shuffle C W records rules dup uc um).validated =
      validateAll records 1 rules dup uc um := by
  rw [runSchedule_eq_serial shuffle hsh C W hC hW records rules dup uc um]
  unfold chunksOf
  rw [serial_validated C records rules dup uc um ((records.length + C - 1) / C) initSchedState]
  rw [List.take_of_length_le (ceil_div_mul_ge records.length C hC)]
  rfl

/-- C8 (amended): the scheduler publishes exactly one progress event per
completed chunk (not per batch), with strictly increasing `processed`
values over the whole run, and every event's percent equal to
`round(processed / total * 100, 2)` in exact arithmetic. -/
theorem c8_progress_per_chunk (shuffle : List ChunkResult → List ChunkResult)
    (hsh : ∀ l, (shuffle l).Perm l) (C W : Nat) (hC : 0 < C) (hW : 0 < W)
    (records : List Row) (rules : List (String × CompiledRule)) (dup : DupIndex)
    (uc : List String) (um : String) :
    (runSchedule shuffle C W records rules dup uc um).events.length =
      (chunksOf C records).length ∧
    (((runSchedule shuffle C W records rules dup uc um).events.map
        (fun e => e.processed)).Pairwise (· < ·)) ∧
    (∀ e ∈ (runSchedule shuffle C W records rules dup uc um).events,
        e.percent = pct e.processed records.length) := by
  rw [runSchedule_eq_serial shuffle hsh C W hC hW records rules dup uc um]
  have hinv := foldl_chunkStep_events_inv records.length rules dup uc um
    (chunksOf C records) initSchedState
    (fun c hc => chunksOf_snd_ne_nil C hC records c hc)
    ⟨by simp [initSchedState], by simp [initSchedState], by simp [initSchedState]⟩
  refine ⟨?_, hinv.1, hinv.2.2⟩
  rw [foldl_chunkStep_events_len]
  simp [initSchedState]

/-- Witness for C1 at a concrete input: three rows, chunk size 2,
width 2, identity completion order. -/
theorem c1_witness :
    (runSchedule id 2 2 [[("a", Value.vStr "1")], [("a", Value.vStr "2")], [("a", Value.vStr "3")]]
        [] [] [] "ignore").success +
      (runSchedule id 2 2 [[("a", Value.vStr "1")], [("a", Value.vStr "2")], [("a", Value.vStr "3")]]
        [] [] [] "ignore").failure =
    ([[("a", Value.vStr "1")], [("a", Value.vStr "2")], [("a", Value.vStr "3")]] : List Row).length :=
  c1_success_failure_total id (fun l => List.Perm.refl l) 2 2 (by decide) (by decide)
    [[("a", Value.vStr "1")], [("a", Value.vStr "2")], [("a", Value.vStr "3")]] [] [] [] "ignore"

/-- Witness for C2 at a concrete input: three rows, chunk size 2,
width 2, identity completion order. -/
theorem c2_witness :
    (runSchedule id 2 2 [[("a", Value.vStr "1")], [("a", Value.vStr "2")], [("a", Value.vStr "3")]]
        [] [] [] "ignore").validated =
      validateAll [[("a", Value.vStr "1")], [("a", Value.vStr "2")], [("a", Value.vStr "3")]] 1
        [] [] [] "ignore" :=
  c2_order_preserved id (fun l => List.Perm.refl l) 2 2 (by decide) (by decide)
    [[("a", Value.vStr "1")], [("a", Value.vStr "2")], [("a", Value.vStr "3")]] [] [] [] "ignore"

/-- Counterexample to C8 as stated: with two one-row chunks in a single
batch (2 rows, chunk size 1, width 2) the scheduler emits two progress
events for the one batch, so the event count differs from the batch
count. -/
theorem c8_counterexample :
    ¬ ((runSchedule id 1 2 [[("a", Value.vStr "x")], [("a", Value.vStr "y")]]
          [] [] [] "ignore").events.length =
       (groupsOf 2 (chunksOf 1 [[("a", Value.vStr "x")], [("a", Value.vStr "y")]])).length) := by
  intro h
  have h1 : (runSchedule id 1 2 [[("a", Value.vStr "x")], [("a", Value.vStr "y")]]
      [] [] [] "ignore").events.length = 2 := by
    rw [runSchedule_eq_serial id (fun l => List.Perm.refl l) 1 2 (by decide) (by decide)
      [[("a", Value.vStr "x")], [("a", Value.vStr "y")]] [] [] [] "ignore"]
    rw [foldl_chunkStep_events_len]
    decide
  have h2 : (groupsOf 2 (chunksOf 1 [[("a", Value.vStr "x")], [("a", Value.vStr "y")]])).length
      = 1 := by decide
  rw [h1, h2] at h
  exact absurd h (by decide)

/-- Witness for C8 (amended) at a concrete input: 2 rows, chunk size 1,
width 2, identity completion order. -/
theorem c8_witness :
    (runSchedule id 1 2 [[("a", Value.vStr "x")], [("a", Value.vStr "y")]]
        [] [] [] "ignore").events.length =
      (chunksOf 1 [[("a", Value.vStr "x")], [("a", Value.vStr "y")]]).length ∧
    (((runSchedule id 1 2 [[("a", Value.vStr "x")], [("a", Value.vStr "y")]]
        [] [] [] "ignore").events.map (fun e => e.processed)).Pairwise (· < ·)) ∧
    (∀ e ∈ (runSchedule id 1 2 [[("a", Value.vStr "x")], [("a", Value.vStr "y")]]
        [] [] [] "ignore").events,
        e.percent = pct e.processed
          ([[("a", Value.vStr "x")], [("a", Value.vStr "y")]] : List Row).length) :=
  c8_progress_per_chunk id (fun l => List.Perm.refl l) 1 2 (by decide) (by decide)
    [[("a", Value.vStr "x")], [("a", Value.vStr "y")]] [] [] [] "ignore"

/-! ## Pipeline-level theorems (C6, C7) -/

/-- C6: on empty input the Result Writer returns no artifact, as the
spec demands — but the pipeline then calls `.getvalue()` on the `None`
result (line 107), so the run terminates with status failed, not
completed: the code contradicts the specified empty-input scenario. -/
theorem c6_empty_input_run_fails :
    write_validated_excel_stream [] = none ∧
    (run_excel_validation_pipeline (fun _ => none) ⟨[], [], none⟩ 5000 4 id []).status =
      .failed "AttributeError: NoneType object has no attribute getvalue" ∧
    (∀ t s f0, (run_excel_validation_pipeline (fun _ => none) ⟨[], [], none⟩ 5000 4 id []).status ≠
      .completed t s f0) := by
  have hs : (run_excel_validation_pipeline (fun _ => none) ⟨[], [], none⟩ 5000 4 id []).status =
      .failed "AttributeError: NoneType object has no attribute getvalue" := rfl
  refine ⟨rfl, hs, fun t s f0 h => ?_⟩
  rw [hs] at h
  exact RunStatus.noConfusion h

theorem compileColumns_error (compile : String → Option (String → Bool)) :
    ∀ (cols : List (String × RawRule)) (f : String) (r : RawRule) (p : String),
      (f, r) ∈ cols → regexOf r = some p → compile p = none →
      ∃ e, compileColumns compile cols = .error e := by
  intro cols
  induction cols with
  | nil => intro f r p hmem _ _; exact absurd hmem (List.not_mem_nil _)
  | cons hd tl ih =>
    intro f r p hmem hp hc
    cases hd with
    | mk f0 r0 =>
      rw [List.mem_cons] at hmem
      cases hreg : regexOf r0 with
      | some p0 =>
        cases hcp : compile p0 with
        | none =>
          exact ⟨"re.error: bad pattern in rule " ++ f0, by simp [compileColumns, hreg, hcp]⟩
        | some m =>
          rcases hmem with heq | hmem2
          · injection heq with h1 h2
            subst h1; subst h2
            rw [hreg] at hp
            injection hp with h3
            subst h3
            rw [hcp] at hc
            exact absurd hc (by simp)
          · obtain ⟨e, he⟩ := ih f r p hmem2 hp hc
            exact ⟨e, by simp [compileColumns, hreg, hcp, he]⟩
      | none =>
        rcases hmem with heq | hmem2
        · injection heq with h1 h2
          subst h1; subst h2
          rw [hreg] at hp
          exact absurd hp (by simp)
        · obtain ⟨e, he⟩ := ih f r p hmem2 hp hc
          exact ⟨e, by simp [compileColumns, hreg, he]⟩

/-- C7 (amended): a malformed regex makes rule preparation fail eagerly
— the run is marked failed with the compilation error and no row is
ever validated — but the failure happens AFTER the input rows were read,
because the pipeline materializes the records (line 57) before loading
the rules (lines 65-69). -/
theorem c7_bad_regex_fails_before_validation (compile : String → Option (String → Bool))
    (cfg : RulesCfg) (C W : Nat) (shuffle : List ChunkResult → List ChunkResult)
    (records : List Row) (f : String) (r : RawRule) (p : String)
    (hmem : (f, r) ∈ cfg.columns) (hp : regexOf r = some p) (hc : compile p = none) :
    ∃ e, prep_rules_from_dict compile cfg = .error e ∧
      (run_excel_validation_pipeline compile cfg C W shuffle records).status = .failed e ∧
      (run_excel_validation_pipeline compile cfg C W shuffle records).rowsValidated = 0 ∧
      (run_excel_validation_pipeline compile cfg C W shuffle records).rowsRead =
        records.length := by
  obtain ⟨e, he⟩ := compileColumns_error compile cfg.columns f r p hmem hp hc
  have hpe : prep_rules_from_dict compile cfg = .error e := by
    simp [prep_rules_from_dict, he]
  refine ⟨e, hpe, ?_, ?_, ?_⟩ <;>
    simp [run_excel_validation_pipeline, hpe]

/-- Witness for C7 (amended) at a concrete input: one rule whose regex
fails to compile, one input row. -/
theorem c7_witness :
    ∃ e, prep_rules_from_dict (fun _ => none)
        ⟨[("name", ⟨false, none, some "("⟩)], [], none⟩ = .error e ∧
      (run_excel_validation_pipeline (fun _ => none)
        ⟨[("name", ⟨false, none, some "("⟩)], [], none⟩ 5000 4 id
        [[("name", Value.vStr "x")]]).status = .failed e ∧
      (run_excel_validation_pipeline (fun _ => none)
        ⟨[("name", ⟨false, none, some "("⟩)], [], none⟩ 5000 4 id
        [[("name", Value.vStr "x")]]).rowsValidated = 0 ∧
      (run_excel_validation_pipeline (fun _ => none)
        ⟨[("name", ⟨false, none, some "("⟩)], [], none⟩ 5000 4 id
        [[("name", Value.vStr "x")]]).rowsRead =
        ([[("name", Value.vStr "x")]] : List Row).length :=
  c7_bad_regex_fails_before_validation (fun _ => none)
    ⟨[("name", ⟨false, none, some "("⟩)], [], none⟩ 5000 4 id
    [[("name", Value.vStr "x")]] "name" ⟨false, none, some "("⟩ "("
    (List.Mem.head _) rfl rfl

/-- Counterexample to C7 as stated: with a malformed regex the rule
preparation fails, yet the pipeline has already read its one input row
— the failure does not happen "before any row is read". -/
theorem c7_counterexample :
    (prep_rules_from_dict (fun _ => none)
        ⟨[("name", ⟨false, none, some "("⟩)], [], none⟩).isOk = false ∧
    (run_excel_validation_pipeline (fun _ => none)
        ⟨[("name", ⟨false, none, some "("⟩)], [], none⟩ 5000 4 id
        [[("name", Value.vStr "x")]]).rowsRead ≠ 0 := by
  refine ⟨rfl, ?_⟩
  intro h
  have h1 : (run_excel_validation_pipeline (fun _ => none)
      ⟨[("name", ⟨false, none, some "("⟩)], [], none⟩ 5000 4 id
      [[("name", Value.vStr "x")]]).rowsRead = 1 := rfl
  rw [h1] at h
  exact absurd h (by decide)
